import Mathlib

/-!
Verification development for the threshold-signature verification and
curse-registry core (RMNRemote) and the keystone registration glue of this
repository.

The RMNRemote contract itself is not present in the source tree; only its
test suite (contracts/src/v0.8/ccip/test/rmn/RMNRemote.t.sol) is.  The
definitions in the RMN namespace are therefore modelled from the
specification (spec.md sections 3, 4, 7), with the check layout inside
setConfig chosen to be consistent with the observable behaviour pinned by
the test suite (in particular test_setConfig_duplicateOnChainPublicKey_reverts,
which shows that a strictly-increasing signer list with a duplicate of an
earlier key appended fails with DuplicateOnchainPublicKey rather than
InvalidSignerOrder, so the duplicate-key membership check runs before the
adjacent-order comparison for each signer).

The keystone namespace embeds deployment/keystone/types.go, which is present
in the source tree (RegisteredDon.signers, ocr2Node.signerAddress).
-/

namespace RMN

/-- Modelled from the spec: a Signer record (spec section 3); the 20-byte
onchain public key is represented as a natural number, ordered as the EVM
orders addresses. -/
structure Signer where
  onchainPublicKey : Nat
  nodeIndex : Nat
  deriving DecidableEq, Repr

/-- Modelled from the spec: a candidate Config (spec section 3): a 32-byte
home-contract config digest (as a natural number, 0 denoting the zero
digest), an ordered signer sequence and the fault bound f. -/
structure Config where
  rmnHomeContractConfigDigest : Nat
  signers : List Signer
  f : Nat
  deriving DecidableEq, Repr

/-- Modelled from the spec: the versioned configuration slot (spec section
3); version starts at 0 before any config is installed and is bumped by
every successful setConfig. -/
structure VersionedConfig where
  version : Nat
  config : Config
  deriving DecidableEq, Repr

/-- Modelled from the spec: the error taxonomy of spec section 7 (the
contract's custom errors named in the test suite). -/
inductive RMNError where
  | ZeroValueNotAllowed
  | NotEnoughSigners
  | InvalidSignerOrder
  | DuplicateOnchainPublicKey
  | ConfigNotSet
  | InvalidSignature
  | OutOfOrderSignatures
  | UnexpectedSigner
  | ThresholdNotMet
  | AlreadyCursed (subject : Nat)
  | NotCursed (subject : Nat)
  deriving DecidableEq, Repr

/-- Modelled from the spec: the observable events of spec section 6. -/
inductive Event where
  | ConfigSet (version : Nat) (config : Config)
  | Cursed (subjects : List Nat)
  | Uncursed (subjects : List Nat)
  deriving DecidableEq, Repr

/-- Modelled from the spec: the single mutable state instance owned by the
component: local chain selector (constructor argument), the versioned
config slot, the curse set (kept as a duplicate-free list) and the event
log. -/
structure RMNState where
  localChainSelector : Nat
  versionedConfig : VersionedConfig
  cursedSubjects : List Nat
  events : List Event
  deriving DecidableEq, Repr

/-- Modelled from the spec: the reserved global curse sentinel (16-byte
constant; the exact bit pattern is a fixed constant, only its distinctness
from the legacy sentinel matters here). -/
def GLOBAL_CURSE_SUBJECT : Nat := 0x01000000000000000000000000000001

/-- Modelled from the spec: the reserved legacy curse sentinel. -/
def LEGACY_CURSE_SUBJECT : Nat := 0x01000000000000000000000000000000

/-- Modelled from the spec: the empty Config held before any setConfig. -/
def emptyConfig : Config :=
  { rmnHomeContractConfigDigest := 0, signers := [], f := 0 }

/-- Modelled from the spec: the state created by a successful construction:
version 0, zero signers, empty curse set, empty event log. -/
def initialState (localChainSelector : Nat) : RMNState :=
  { localChainSelector := localChainSelector
    versionedConfig := { version := 0, config := emptyConfig }
    cursedSubjects := []
    events := [] }

/-- Modelled from the spec: the contract constructor is absent from both the
source tree and spec.md; it is modelled from the constructor tests
(RMNRemote_constructor in RMNRemote.t.sol): a zero local chain selector is
rejected with ZeroValueNotAllowed, any other selector is stored. -/
def RMNRemoteConstructor (localChainSelector : Nat) : Except RMNError RMNState :=
  if localChainSelector = 0 then .error .ZeroValueNotAllowed
  else .ok (initialState localChainSelector)

/-- Modelled from the spec: getter for the constructor argument (pinned by
test_constructor_success). -/
def getLocalChainSelector (st : RMNState) : Nat :=
  st.localChainSelector

/-- Modelled from the spec: the per-signer validation loop of setConfig
(spec section 4.1 checks 3 and 4).  For each signer, membership of its key
in the already-accepted set is checked first (DuplicateOnchainPublicKey),
then the strict-increase comparison against the previous key
(InvalidSignerOrder).  The duplicate check running first is forced by
test_setConfig_duplicateOnChainPublicKey_reverts, where the duplicated key
appended after a sorted list also violates the order yet the reported
error is DuplicateOnchainPublicKey. -/
def checkSigners : List Signer → List Nat → Option Nat → Except RMNError Unit
  | [], _, _ => .ok ()
  | s :: rest, seen, prev =>
    if s.onchainPublicKey ∈ seen then .error .DuplicateOnchainPublicKey
    else
      match prev with
      | some p =>
        if s.onchainPublicKey ≤ p then .error .InvalidSignerOrder
        else checkSigners rest (s.onchainPublicKey :: seen) (some s.onchainPublicKey)
      | none => checkSigners rest (s.onchainPublicKey :: seen) (some s.onchainPublicKey)

/-- Modelled from the spec: setConfig (spec section 4.1).  Checks in order:
zero digest, signer count below 2f+1, then the per-signer loop; on success
the version is bumped, the candidate replaces the stored config wholesale
and a ConfigSet event is appended. -/
def setConfig (newConfig : Config) (st : RMNState) : Except RMNError RMNState :=
  if newConfig.rmnHomeContractConfigDigest = 0 then .error .ZeroValueNotAllowed
  else if newConfig.signers.length < 2 * newConfig.f + 1 then .error .NotEnoughSigners
  else
    match checkSigners newConfig.signers [] none with
    | .error e => .error e
    | .ok _ =>
      let newVersion := st.versionedConfig.version + 1
      .ok { st with
              versionedConfig := { version := newVersion, config := newConfig }
              events := st.events ++ [Event.ConfigSet newVersion newConfig] }

/-- Modelled from the spec: getVersionedConfig, a pure read. -/
def getVersionedConfig (st : RMNState) : VersionedConfig :=
  st.versionedConfig

/-- Modelled from the spec: a signature record (spec section 3); the
recovery metadata is carried by the recovery oracle given to verify. -/
structure Signature where
  r : Nat
  s : Nat
  deriving DecidableEq, Repr

/-- Modelled from the spec: the keys of the currently installed signer
set. -/
def signerKeys (st : RMNState) : List Nat :=
  st.versionedConfig.config.signers.map (fun s => s.onchainPublicKey)

/-- Modelled from the spec: address recovery over a signature sequence
(spec section 4.2 step 3); recovery of any signature failing yields none
(the InvalidSignature case), otherwise the ordered list of recovered
addresses. -/
def recoverAll (recover : Signature → Option Nat) : List Signature → Option (List Nat)
  | [] => some []
  | sig :: rest =>
    match recover sig with
    | none => none
    | some addr =>
      match recoverAll recover rest with
      | none => none
      | some addrs => some (addr :: addrs)

/-- Modelled from the spec: the sequential adjacent comparison of spec
section 4.2 step 4: the recovered addresses must be strictly increasing. -/
def strictlyIncreasingB : List Nat → Bool
  | [] => true
  | [_] => true
  | a :: b :: rest => decide (a < b) && strictlyIncreasingB (b :: rest)

/-- Modelled from the spec: the addresses recovered by verify for a given
signature batch: the message digest is a deterministic function of the
caller identity, the installed config digest and the commitment sequence
(spec section 4.2 step 2; the exact formula is left open by spec section
9, so it is a parameter), and each signature is recovered against it. -/
def recoveredAddrs (computeDigest : Nat → Nat → List Nat → Nat)
    (ecrecover : Nat → Signature → Option Nat)
    (offrampAddress : Nat) (merkleRoots : List Nat) (st : RMNState)
    (signatures : List Signature) : Option (List Nat) :=
  recoverAll
    (ecrecover
      (computeDigest offrampAddress st.versionedConfig.config.rmnHomeContractConfigDigest
        merkleRoots))
    signatures

/-- Modelled from the spec: verify (spec section 4.2).  Checks in order:
config installed (version still 0 means ConfigNotSet), recovery of every
signature (InvalidSignature), strictly increasing recovered addresses
(OutOfOrderSignatures, which also rejects duplicates), membership of every
recovered address in the installed signer set (UnexpectedSigner), and the
quorum bound of at least f+1 matching signatures (ThresholdNotMet).  It is
a pure predicate over the state. -/
def verify (computeDigest : Nat → Nat → List Nat → Nat)
    (ecrecover : Nat → Signature → Option Nat)
    (offrampAddress : Nat) (merkleRoots : List Nat)
    (signatures : List Signature) (st : RMNState) : Except RMNError Unit :=
  if st.versionedConfig.version = 0 then .error .ConfigNotSet
  else
    match recoveredAddrs computeDigest ecrecover offrampAddress merkleRoots st signatures with
    | none => .error .InvalidSignature
    | some addrs =>
      if strictlyIncreasingB addrs then
        if addrs.all (fun a => decide (a ∈ signerKeys st)) then
          if addrs.length < st.versionedConfig.config.f + 1 then .error .ThresholdNotMet
          else .ok ()
        else .error .UnexpectedSigner
      else .error .OutOfOrderSignatures

/-- Modelled from the spec: the element-wise insertion loop of curse (spec
section 4.3): each subject already present (either cursed before the call
or added earlier in the same call) aborts with AlreadyCursed. -/
def curseAdd : List Nat → List Nat → Except RMNError (List Nat)
  | [], cur => .ok cur
  | s :: rest, cur =>
    if s ∈ cur then .error (.AlreadyCursed s)
    else curseAdd rest (cur ++ [s])

/-- Modelled from the spec: curse (spec section 4.3); on success all
subjects are added and a Cursed event is appended. -/
def curse (subjects : List Nat) (st : RMNState) : Except RMNError RMNState :=
  match curseAdd subjects st.cursedSubjects with
  | .error e => .error e
  | .ok cs =>
    .ok { st with
            cursedSubjects := cs
            events := st.events ++ [Event.Cursed subjects] }

/-- Modelled from the spec: the element-wise removal loop of uncurse (spec
section 4.3): each subject not currently present (either never cursed or
already removed earlier in the same call) aborts with NotCursed. -/
def uncurseRemove : List Nat → List Nat → Except RMNError (List Nat)
  | [], cur => .ok cur
  | s :: rest, cur =>
    if s ∈ cur then uncurseRemove rest (cur.erase s)
    else .error (.NotCursed s)

/-- Modelled from the spec: uncurse (spec section 4.3); on success all
subjects are removed and an Uncursed event is appended. -/
def uncurse (subjects : List Nat) (st : RMNState) : Except RMNError RMNState :=
  match uncurseRemove subjects st.cursedSubjects with
  | .error e => .error e
  | .ok cs =>
    .ok { st with
            cursedSubjects := cs
            events := st.events ++ [Event.Uncursed subjects] }

/-- Modelled from the spec: getCursedSubjects, a pure read. -/
def getCursedSubjects (st : RMNState) : List Nat :=
  st.cursedSubjects

/-- Modelled from the spec: the nullary isCursed query (spec section 4.3):
true iff the curse set contains the global or the legacy sentinel. -/
def isCursed (st : RMNState) : Bool :=
  decide (GLOBAL_CURSE_SUBJECT ∈ st.cursedSubjects) ||
    decide (LEGACY_CURSE_SUBJECT ∈ st.cursedSubjects)

/-- Modelled from the spec: the per-subject isCursed query (spec section
4.3): true iff the curse set contains the subject or the global sentinel;
the legacy sentinel deliberately does not satisfy the per-subject check. -/
def isCursedSubject (st : RMNState) (subject : Nat) : Bool :=
  decide (subject ∈ st.cursedSubjects) ||
    decide (GLOBAL_CURSE_SUBJECT ∈ st.cursedSubjects)

/-- Modelled from the spec: the externally visible transactions. -/
inductive Tx where
  | setConfig (c : Config)
  | curse (subjects : List Nat)
  | uncurse (subjects : List Nat)
  | verify (offrampAddress : Nat) (merkleRoots : List Nat) (signatures : List Signature)

/-- Modelled from the spec: transaction semantics (spec section 5): every
mutation is all-or-nothing, so a failing transaction leaves the state
exactly as it was; verify reads the state and never writes it. -/
def runTx (computeDigest : Nat → Nat → List Nat → Nat)
    (ecrecover : Nat → Signature → Option Nat)
    (st : RMNState) (tx : Tx) : Except RMNError Unit × RMNState :=
  match tx with
  | .setConfig c =>
    match setConfig c st with
    | .ok st' => (.ok (), st')
    | .error e => (.error e, st)
  | .curse subjects =>
    match curse subjects st with
    | .ok st' => (.ok (), st')
    | .error e => (.error e, st)
  | .uncurse subjects =>
    match uncurse subjects st with
    | .ok st' => (.ok (), st')
    | .error e => (.error e, st)
  | .verify offrampAddress merkleRoots signatures =>
    (verify computeDigest ecrecover offrampAddress merkleRoots signatures st, st)

/-- Key sequence of a signer list, in order. -/
def sigKeys : List Signer → List Nat
  | [] => []
  | s :: rest => s.onchainPublicKey :: sigKeys rest

/-- Invariant of the checkSigners walk: the previous-key register together
with the remaining key sequence is strictly increasing. -/
def chainOk : Option Nat → List Nat → Prop
  | none, ks => List.Chain' (· < ·) ks
  | some q, ks => List.Chain' (· < ·) (q :: ks)

/-- Invariant of the checkSigners walk: every key accepted so far is at
most the previous-key register. -/
def seenOk (seen : List Nat) (p : Option Nat) : Prop :=
  ∀ x ∈ seen, ∃ q, p = some q ∧ x ≤ q

/-- Concrete candidate with a strictly increasing prefix and the first key
duplicated at the end, the shape of
test_setConfig_duplicateOnChainPublicKey_reverts. -/
def badDupConfig : Config :=
  { rmnHomeContractConfigDigest := 1
    signers := [⟨10, 0⟩, ⟨20, 1⟩, ⟨30, 2⟩, ⟨10, 3⟩]
    f := 1 }

/-- Concrete valid candidate with three strictly increasing signers and
f = 1. -/
def smallConfig : Config :=
  { rmnHomeContractConfigDigest := 2
    signers := [⟨1, 0⟩, ⟨2, 1⟩, ⟨3, 2⟩]
    f := 1 }

/-- Concrete installed configuration with seven signers and f = 3, the
shape of the RMNRemote_verify_withConfigSet test fixture. -/
def sevenConfig : Config :=
  { rmnHomeContractConfigDigest := 5
    signers := [⟨1, 0⟩, ⟨2, 1⟩, ⟨3, 2⟩, ⟨4, 3⟩, ⟨5, 4⟩, ⟨6, 5⟩, ⟨7, 6⟩]
    f := 3 }

/-- Concrete state with sevenConfig installed at version 1. -/
def st7 : RMNState :=
  { localChainSelector := 1
    versionedConfig := { version := 1, config := sevenConfig }
    cursedSubjects := []
    events := [] }

/-- Concrete state whose curse set holds the single subject 5. -/
def cursedState5 : RMNState :=
  { localChainSelector := 1
    versionedConfig := { version := 0, config := emptyConfig }
    cursedSubjects := [5]
    events := [] }

/-- State reached from a fresh instance by curse applied to the legacy
sentinel alone. -/
def legacyCursedState : RMNState :=
  { localChainSelector := 1
    versionedConfig := { version := 0, config := emptyConfig }
    cursedSubjects := [LEGACY_CURSE_SUBJECT]
    events := [Event.Cursed [LEGACY_CURSE_SUBJECT]] }

/-- Recovery oracle used on concrete inputs: recovery always succeeds and
returns the r component of the signature. -/
def ecId : Nat → Signature → Option Nat :=
  fun _ sig => some sig.r

/-- Digest function used on concrete inputs. -/
def cdZero : Nat → Nat → List Nat → Nat :=
  fun _ _ _ => 0

end RMN

namespace keystone

/-- Big-endian byte-sequence to number conversion: the value of an EVM
address obtained from a 20-byte slice (common.BytesToAddress on an exactly
20-byte input keeps the bytes as given). -/
def bytesToNat (bs : List Nat) : Nat :=
  bs.foldl (fun acc b => 256 * acc + b) 0

/-- Embeds the ocr2Node shim of deployment/keystone/types.go (fields used
by RegisteredDon.signers): the 32-byte Signer field as a byte list, the
string form of the node's P2P key as a byte list (Go compares strings as
byte sequences), and the bootstrap flag (the field name keeps the source's
spelling IsBoostrap). -/
structure Ocr2Node where
  Signer : List Nat
  P2PKeyStr : List Nat
  IsBoostrap : Bool
  deriving DecidableEq, Repr

/-- Embeds ocr2Node.signerAddress of types.go: the eth address is the
first 20 bytes of the Signer field. -/
def signerAddress (n : Ocr2Node) : Nat :=
  bytesToNat (n.Signer.take 20)

/-- Insertion step for sorting nodes by the string form of their P2P key,
as sort.Slice with the comparison of RegisteredDon.signers does. -/
def insertByP2p (n : Ocr2Node) : List Ocr2Node → List Ocr2Node
  | [] => [n]
  | m :: rest =>
    if n.P2PKeyStr < m.P2PKeyStr then n :: m :: rest
    else m :: insertByP2p n rest

/-- Sorting of the node list by P2P key string, as performed at the top of
RegisteredDon.signers (sort.Slice is unstable, but on node lists with
pairwise distinct P2P key strings the sorted order is unique, so insertion
sort embeds it exactly there). -/
def sortByP2p : List Ocr2Node → List Ocr2Node
  | [] => []
  | n :: rest => insertByP2p n (sortByP2p rest)

/-- Embeds the RegisteredDon record of types.go (fields used by
RegisteredDon.signers). -/
structure RegisteredDon where
  Name : List Nat
  Nodes : List Ocr2Node
  deriving DecidableEq, Repr

/-- Embeds RegisteredDon.signers of types.go: sort the nodes by the string
form of their P2P key, drop bootstrap nodes, and return the signer
addresses of the rest in that order. -/
def RegisteredDon.signers (d : RegisteredDon) : List Nat :=
  ((sortByP2p d.Nodes).filter (fun n => !n.IsBoostrap)).map signerAddress

/-- Concrete node whose P2P key string sorts first but whose signer
address (leading byte 2) is the larger of the two. -/
def exNode1 : Ocr2Node :=
  { Signer := 2 :: List.replicate 31 7
    P2PKeyStr := [97, 97]
    IsBoostrap := false }

/-- Concrete node whose P2P key string sorts second but whose signer
address (leading byte 1) is the smaller of the two. -/
def exNode2 : Ocr2Node :=
  { Signer := 1 :: List.replicate 31 9
    P2PKeyStr := [98, 98]
    IsBoostrap := false }

/-- Concrete bootstrap node, excluded from the signer list. -/
def exBootNode : Ocr2Node :=
  { Signer := 3 :: List.replicate 31 4
    P2PKeyStr := [99, 99]
    IsBoostrap := true }

/-- Concrete registered don holding the three nodes above in unsorted
order. -/
def exampleDon : RegisteredDon :=
  { Name := [100]
    Nodes := [exNode2, exBootNode, exNode1] }

end keystone

namespace RMN

theorem strictlyIncreasingB_iff (l : List Nat) :
    strictlyIncreasingB l = true ↔ List.Chain' (· < ·) l := by
  induction l with
  | nil => simp [strictlyIncreasingB]
  | cons a rest ih =>
    cases rest with
    | nil => simp [strictlyIncreasingB]
    | cons b rest' =>
      simp only [strictlyIncreasingB, Bool.and_eq_true, decide_eq_true_eq,
        List.chain'_cons] at ih ⊢
      exact and_congr Iff.rfl ih

theorem chain'_lt_nodup {l : List Nat} (h : List.Chain' (· < ·) l) : l.Nodup :=
  List.Pairwise.imp (fun hlt => Nat.ne_of_lt hlt) (List.chain'_iff_pairwise.mp h)

theorem checkSigners_ok : ∀ (l : List Signer) (seen : List Nat) (p : Option Nat),
    chainOk p (sigKeys l) → seenOk seen p → checkSigners l seen p = .ok () := by
  intro l
  induction l with
  | nil => intro seen p _ _; rfl
  | cons s rest ih =>
    intro seen p hchain hseen
    cases p with
    | none =>
      have hnot : s.onchainPublicKey ∉ seen := by
        intro hmem
        obtain ⟨q, hq, _⟩ := hseen _ hmem
        exact Option.noConfusion hq
      have hchain' : chainOk (some s.onchainPublicKey) (sigKeys rest) := hchain
      have hseen' : seenOk (s.onchainPublicKey :: seen) (some s.onchainPublicKey) := by
        intro x hx
        rcases List.mem_cons.mp hx with hx | hx
        · exact ⟨s.onchainPublicKey, rfl, le_of_eq hx⟩
        · obtain ⟨q, hq, _⟩ := hseen _ hx
          exact Option.noConfusion hq
      simp [checkSigners, hnot, ih _ _ hchain' hseen']
    | some q =>
      have hqlt : q < s.onchainPublicKey := (List.chain'_cons.mp hchain).1
      have hnot : s.onchainPublicKey ∉ seen := by
        intro hmem
        obtain ⟨q', hq', hle⟩ := hseen _ hmem
        cases hq'
        omega
      have hchain' : chainOk (some s.onchainPublicKey) (sigKeys rest) :=
        (List.chain'_cons.mp hchain).2
      have hseen' : seenOk (s.onchainPublicKey :: seen) (some s.onchainPublicKey) := by
        intro x hx
        rcases List.mem_cons.mp hx with hx | hx
        · exact ⟨s.onchainPublicKey, rfl, le_of_eq hx⟩
        · obtain ⟨q', hq', hle⟩ := hseen _ hx
          cases hq'
          exact ⟨s.onchainPublicKey, rfl, by omega⟩
      have hord : ¬ s.onchainPublicKey ≤ q := by omega
      simp [checkSigners, hnot, hord, ih _ _ hchain' hseen']

theorem checkSigners_order_error :
    ∀ (l : List Signer) (seen : List Nat) (p : Option Nat),
    (sigKeys l).Nodup → (∀ x ∈ seen, x ∉ sigKeys l) → ¬ chainOk p (sigKeys l) →
    checkSigners l seen p = .error .InvalidSignerOrder := by
  intro l
  induction l with
  | nil =>
    intro seen p _ _ hchain
    exfalso
    cases p with
    | none => exact hchain (show List.Chain' (· < ·) (sigKeys []) from List.chain'_nil)
    | some q =>
      exact hchain (show List.Chain' (· < ·) (q :: sigKeys []) from List.chain'_singleton q)
  | cons s rest ih =>
    intro seen p hnodup hdisj hchain
    have hkey : s.onchainPublicKey ∈ sigKeys (s :: rest) := by
      simp [sigKeys]
    have hnot : s.onchainPublicKey ∉ seen := fun hmem => hdisj _ hmem hkey
    have hnodup' : (sigKeys rest).Nodup := by
      have : sigKeys (s :: rest) = s.onchainPublicKey :: sigKeys rest := rfl
      rw [this] at hnodup
      exact (List.nodup_cons.mp hnodup).2
    have hhead : s.onchainPublicKey ∉ sigKeys rest := by
      have : sigKeys (s :: rest) = s.onchainPublicKey :: sigKeys rest := rfl
      rw [this] at hnodup
      exact (List.nodup_cons.mp hnodup).1
    have hdisj' : ∀ x ∈ s.onchainPublicKey :: seen, x ∉ sigKeys rest := by
      intro x hx
      rcases List.mem_cons.mp hx with hx | hx
      · rw [hx]; exact hhead
      · intro hmem
        exact hdisj _ hx (List.mem_cons_of_mem _ hmem)
    cases p with
    | none =>
      have hchain' : ¬ chainOk (some s.onchainPublicKey) (sigKeys rest) := hchain
      simp [checkSigners, hnot, ih _ _ hnodup' hdisj' hchain']
    | some q =>
      by_cases hord : s.onchainPublicKey ≤ q
      · simp [checkSigners, hnot, hord]
      · have hord' : q < s.onchainPublicKey := by omega
        have hchain' : ¬ chainOk (some s.onchainPublicKey) (sigKeys rest) := by
          intro hc
          exact hchain
            (show List.Chain' (· < ·) (q :: sigKeys (s :: rest)) from
              List.chain'_cons.mpr ⟨hord', hc⟩)
        simp [checkSigners, hnot, hord, ih _ _ hnodup' hdisj' hchain']

theorem checkSigners_dup :
    ∀ (l : List Signer) (d : Signer) (seen : List Nat) (p : Option Nat),
    chainOk p (sigKeys l) → seenOk seen p →
    d.onchainPublicKey ∈ sigKeys l ++ seen →
    checkSigners (l ++ [d]) seen p = .error .DuplicateOnchainPublicKey := by
  intro l
  induction l with
  | nil =>
    intro d seen p _ _ hmem
    have : d.onchainPublicKey ∈ seen := by simpa [sigKeys] using hmem
    simp [checkSigners, this]
  | cons s rest ih =>
    intro d seen p hchain hseen hmem
    cases p with
    | none =>
      have hnot : s.onchainPublicKey ∉ seen := by
        intro hx
        obtain ⟨q, hq, _⟩ := hseen _ hx
        exact Option.noConfusion hq
      have hchain' : chainOk (some s.onchainPublicKey) (sigKeys rest) := hchain
      have hseen' : seenOk (s.onchainPublicKey :: seen) (some s.onchainPublicKey) := by
        intro x hx
        rcases List.mem_cons.mp hx with hx | hx
        · exact ⟨s.onchainPublicKey, rfl, le_of_eq hx⟩
        · obtain ⟨q, hq, _⟩ := hseen _ hx
          exact Option.noConfusion hq
      have hmem' : d.onchainPublicKey ∈ sigKeys rest ++ (s.onchainPublicKey :: seen) := by
        have : d.onchainPublicKey ∈ s.onchainPublicKey :: (sigKeys rest ++ seen) := by
          simpa [sigKeys] using hmem
        rcases List.mem_cons.mp this with h | h
        · exact List.mem_append.mpr (Or.inr (by simp [h]))
        · rcases List.mem_append.mp h with h | h
          · exact List.mem_append.mpr (Or.inl h)
          · exact List.mem_append.mpr (Or.inr (List.mem_cons_of_mem _ h))
      simp [checkSigners, hnot, ih _ _ _ hchain' hseen' hmem']
    | some q =>
      have hqlt : q < s.onchainPublicKey := (List.chain'_cons.mp hchain).1
      have hnot : s.onchainPublicKey ∉ seen := by
        intro hx
        obtain ⟨q', hq', hle⟩ := hseen _ hx
        cases hq'
        omega
      have hchain' : chainOk (some s.onchainPublicKey) (sigKeys rest) :=
        (List.chain'_cons.mp hchain).2
      have hseen' : seenOk (s.onchainPublicKey :: seen) (some s.onchainPublicKey) := by
        intro x hx
        rcases List.mem_cons.mp hx with hx | hx
        · exact ⟨s.onchainPublicKey, rfl, le_of_eq hx⟩
        · obtain ⟨q', hq', hle⟩ := hseen _ hx
          cases hq'
          exact ⟨s.onchainPublicKey, rfl, by omega⟩
      have hmem' : d.onchainPublicKey ∈ sigKeys rest ++ (s.onchainPublicKey :: seen) := by
        have : d.onchainPublicKey ∈ s.onchainPublicKey :: (sigKeys rest ++ seen) := by
          simpa [sigKeys] using hmem
        rcases List.mem_cons.mp this with h | h
        · exact List.mem_append.mpr (Or.inr (by simp [h]))
        · rcases List.mem_append.mp h with h | h
          · exact List.mem_append.mpr (Or.inl h)
          · exact List.mem_append.mpr (Or.inr (List.mem_cons_of_mem _ h))
      have hord : ¬ s.onchainPublicKey ≤ q := by omega
      simp [checkSigners, hnot, hord, ih _ _ _ hchain' hseen' hmem']

theorem curseAdd_ok : ∀ (subjects cur : List Nat), subjects.Nodup →
    (∀ s ∈ subjects, s ∉ cur) → curseAdd subjects cur = .ok (cur ++ subjects) := by
  intro subjects
  induction subjects with
  | nil => intro cur _ _; simp [curseAdd]
  | cons s rest ih =>
    intro cur hnodup hdisj
    have hs : s ∉ cur := hdisj s (List.mem_cons_self s rest)
    have hrest : rest.Nodup := (List.nodup_cons.mp hnodup).2
    have hsrest : s ∉ rest := (List.nodup_cons.mp hnodup).1
    have hdisj' : ∀ t ∈ rest, t ∉ cur ++ [s] := by
      intro t ht hmem
      rcases List.mem_append.mp hmem with h | h
      · exact hdisj t (List.mem_cons_of_mem _ ht) h
      · have : t = s := by simpa using h
        rw [this] at ht
        exact hsrest ht
    have := ih (cur ++ [s]) hrest hdisj'
    simp only [curseAdd, if_neg hs, this]
    simp

theorem curseAdd_error : ∀ (subjects cur : List Nat),
    (¬ subjects.Nodup ∨ ∃ s ∈ subjects, s ∈ cur) →
    ∃ s ∈ subjects, curseAdd subjects cur = .error (.AlreadyCursed s) := by
  intro subjects
  induction subjects with
  | nil =>
    intro cur h
    rcases h with h | ⟨s, hs, _⟩
    · exact absurd List.nodup_nil h
    · exact absurd hs (List.not_mem_nil s)
  | cons s rest ih =>
    intro cur h
    by_cases hs : s ∈ cur
    · exact ⟨s, List.mem_cons_self s rest, by simp [curseAdd, hs]⟩
    · have h' : ¬ rest.Nodup ∨ ∃ t ∈ rest, t ∈ cur ++ [s] := by
        rcases h with h | ⟨t, ht, htc⟩
        · rw [List.nodup_cons] at h
          push_neg at h
          by_cases hsr : s ∈ rest
          · exact Or.inr ⟨s, hsr, by simp⟩
          · exact Or.inl (h hsr)
        · rcases List.mem_cons.mp ht with ht | ht
          · rw [ht] at htc
            exact absurd htc hs
          · exact Or.inr ⟨t, ht, List.mem_append.mpr (Or.inl htc)⟩
      obtain ⟨t, ht, heq⟩ := ih (cur ++ [s]) h'
      exact ⟨t, List.mem_cons_of_mem _ ht, by simp [curseAdd, hs, heq]⟩

theorem uncurseRemove_ok : ∀ (subjects cur : List Nat), cur.Nodup → subjects.Nodup →
    (∀ s ∈ subjects, s ∈ cur) →
    ∃ cur', uncurseRemove subjects cur = .ok cur' ∧ cur'.Nodup ∧
      (∀ x, x ∈ cur' ↔ x ∈ cur ∧ x ∉ subjects) := by
  intro subjects
  induction subjects with
  | nil =>
    intro cur hcur _ _
    exact ⟨cur, rfl, hcur, by simp⟩
  | cons s rest ih =>
    intro cur hcur hnodup hall
    have hs : s ∈ cur := hall s (List.mem_cons_self s rest)
    have hrest : rest.Nodup := (List.nodup_cons.mp hnodup).2
    have hsrest : s ∉ rest := (List.nodup_cons.mp hnodup).1
    have herase : (cur.erase s).Nodup := List.Nodup.erase s hcur
    have hall' : ∀ t ∈ rest, t ∈ cur.erase s := by
      intro t ht
      have hts : t ≠ s := fun h => hsrest (h ▸ ht)
      exact (List.Nodup.mem_erase_iff hcur).mpr ⟨hts, hall t (List.mem_cons_of_mem _ ht)⟩
    obtain ⟨cur', heq, hnd, hmem⟩ := ih (cur.erase s) herase hrest hall'
    refine ⟨cur', by simp [uncurseRemove, hs, heq], hnd, ?_⟩
    intro x
    rw [hmem x, List.Nodup.mem_erase_iff hcur]
    constructor
    · rintro ⟨⟨hxs, hxc⟩, hxr⟩
      exact ⟨hxc, by simp [hxs, hxr]⟩
    · rintro ⟨hxc, hxsr⟩
      simp only [List.mem_cons, not_or] at hxsr
      exact ⟨⟨hxsr.1, hxc⟩, hxsr.2⟩

theorem uncurseRemove_error : ∀ (subjects cur : List Nat), cur.Nodup →
    (¬ subjects.Nodup ∨ ∃ s ∈ subjects, s ∉ cur) →
    ∃ s ∈ subjects, uncurseRemove subjects cur = .error (.NotCursed s) := by
  intro subjects
  induction subjects with
  | nil =>
    intro cur _ h
    rcases h with h | ⟨s, hs, _⟩
    · exact absurd List.nodup_nil h
    · exact absurd hs (List.not_mem_nil s)
  | cons s rest ih =>
    intro cur hcur h
    by_cases hs : s ∈ cur
    · have h' : ¬ rest.Nodup ∨ ∃ t ∈ rest, t ∉ cur.erase s := by
        rcases h with h | ⟨t, ht, htc⟩
        · rw [List.nodup_cons] at h
          push_neg at h
          by_cases hsr : s ∈ rest
          · refine Or.inr ⟨s, hsr, ?_⟩
            intro hmem
            exact ((List.Nodup.mem_erase_iff hcur).mp hmem).1 rfl
          · exact Or.inl (h hsr)
        · rcases List.mem_cons.mp ht with ht | ht
          · rw [ht] at htc
            exact absurd hs htc
          · refine Or.inr ⟨t, ht, ?_⟩
            intro hmem
            exact htc (List.mem_of_mem_erase hmem)
      obtain ⟨t, ht, heq⟩ := ih (cur.erase s) (List.Nodup.erase s hcur) h'
      exact ⟨t, List.mem_cons_of_mem _ ht, by simp [uncurseRemove, hs, heq]⟩
    · exact ⟨s, List.mem_cons_self s rest, by simp [uncurseRemove, hs]⟩

/-- C7: for every caller identity and every pair of commitment and
signature sequences (including empty ones), verify fails with
ConfigNotSet while the state is still at the initial version-0,
zero-signer state. -/
theorem verify_config_not_set (computeDigest : Nat → Nat → List Nat → Nat)
    (ecrecover : Nat → Signature → Option Nat)
    (offrampAddress : Nat) (merkleRoots : List Nat) (signatures : List Signature)
    (st : RMNState) (hv : st.versionedConfig.version = 0) :
    verify computeDigest ecrecover offrampAddress merkleRoots signatures st =
      .error .ConfigNotSet := by
  simp [verify, hv]

theorem verify_config_not_set_witness :
    verify cdZero ecId 7 [3] [⟨1, 2⟩] (initialState 1) = .error .ConfigNotSet ∧
    verify cdZero ecId 7 [] [] (initialState 1) = .error .ConfigNotSet :=
  ⟨verify_config_not_set cdZero ecId 7 [3] [⟨1, 2⟩] (initialState 1) rfl,
   verify_config_not_set cdZero ecId 7 [] [] (initialState 1) rfl⟩

/-- C8: verify never mutates any component state: for every state and
every input, the state after a verify transaction (whether it succeeds or
fails) equals the state before it, and in particular the VersionedConfig
and the CurseSet are unchanged. -/
theorem verify_no_state_mutation (computeDigest : Nat → Nat → List Nat → Nat)
    (ecrecover : Nat → Signature → Option Nat) (st : RMNState)
    (offrampAddress : Nat) (merkleRoots : List Nat) (signatures : List Signature) :
    (runTx computeDigest ecrecover st
        (.verify offrampAddress merkleRoots signatures)).2.versionedConfig =
      st.versionedConfig ∧
    (runTx computeDigest ecrecover st
        (.verify offrampAddress merkleRoots signatures)).2.cursedSubjects =
      st.cursedSubjects ∧
    (runTx computeDigest ecrecover st
        (.verify offrampAddress merkleRoots signatures)).2 = st :=
  ⟨rfl, rfl, rfl⟩

/-- C9: constructing the component with a local chain selector of 0 fails
with ZeroValueNotAllowed; constructing it with a non-zero selector
succeeds and getLocalChainSelector thereafter returns exactly that
constructor argument. -/
theorem constructor_chain_selector :
    RMNRemoteConstructor 0 = .error .ZeroValueNotAllowed ∧
    ∀ sel : Nat, sel ≠ 0 →
      ∃ st, RMNRemoteConstructor sel = .ok st ∧ getLocalChainSelector st = sel := by
  refine ⟨rfl, ?_⟩
  intro sel hsel
  exact ⟨initialState sel, by simp [RMNRemoteConstructor, hsel], rfl⟩

theorem constructor_chain_selector_witness :
    ∃ st, RMNRemoteConstructor 1 = .ok st ∧ getLocalChainSelector st = 1 :=
  constructor_chain_selector.2 1 (by decide)

/-- C2: for every CurseSet, isCursed() is true iff the set contains the
global or the legacy sentinel, and isCursed(subject) is true iff the set
contains the subject or the global sentinel; in particular, after
curse([LEGACY_CURSE_SUBJECT]) alone, isCursed() is true but
isCursed(subject) is false for every subject other than the two
sentinels. -/
theorem isCursed_queries :
    (∀ st : RMNState, isCursed st = true ↔
      (GLOBAL_CURSE_SUBJECT ∈ st.cursedSubjects ∨
        LEGACY_CURSE_SUBJECT ∈ st.cursedSubjects)) ∧
    (∀ (st : RMNState) (subject : Nat), isCursedSubject st subject = true ↔
      (subject ∈ st.cursedSubjects ∨ GLOBAL_CURSE_SUBJECT ∈ st.cursedSubjects)) ∧
    (∀ st st' : RMNState, st.cursedSubjects = [] →
      curse [LEGACY_CURSE_SUBJECT] st = .ok st' →
      isCursed st' = true ∧
        ∀ s : Nat, s ≠ GLOBAL_CURSE_SUBJECT → s ≠ LEGACY_CURSE_SUBJECT →
          isCursedSubject st' s = false) := by
  refine ⟨?_, ?_, ?_⟩
  · intro st
    simp [isCursed]
  · intro st subject
    simp [isCursedSubject]
  · intro st st' hempty hcurse
    have hca : curseAdd [LEGACY_CURSE_SUBJECT] st.cursedSubjects =
        .ok [LEGACY_CURSE_SUBJECT] := by
      rw [hempty]
      rfl
    rw [curse, hca] at hcurse
    have hst' : st' = { st with
        cursedSubjects := [LEGACY_CURSE_SUBJECT]
        events := st.events ++ [Event.Cursed [LEGACY_CURSE_SUBJECT]] } := by
      cases hcurse
      rfl
    subst hst'
    have hGL : GLOBAL_CURSE_SUBJECT ≠ LEGACY_CURSE_SUBJECT := by decide
    constructor
    · simp [isCursed]
    · intro s hsG hsL
      simp [isCursedSubject, hsL, hGL]

theorem isCursed_queries_witness :
    curse [LEGACY_CURSE_SUBJECT] (initialState 1) = .ok legacyCursedState ∧
    isCursed legacyCursedState = true ∧
    isCursedSubject legacyCursedState 3 = false := by
  have h := isCursed_queries.2.2 (initialState 1) legacyCursedState rfl rfl
  exact ⟨rfl, h.1, h.2 3 (by decide) (by decide)⟩

/-- C1: for every verify call on an installed Config, if the sequence of
recovered addresses is not strictly increasing, verify fails with
OutOfOrderSignatures; this one check also rejects any batch whose
recovered addresses contain a duplicate, and whenever the recovered
addresses contain a duplicate no other error kind is reported. -/
theorem verify_out_of_order_signatures
    (computeDigest : Nat → Nat → List Nat → Nat)
    (ecrecover : Nat → Signature → Option Nat)
    (offrampAddress : Nat) (merkleRoots : List Nat) (signatures : List Signature)
    (st : RMNState) (addrs : List Nat)
    (hinstalled : st.versionedConfig.version ≠ 0)
    (hrec : recoveredAddrs computeDigest ecrecover offrampAddress merkleRoots st signatures
      = some addrs) :
    (¬ List.Chain' (· < ·) addrs →
      verify computeDigest ecrecover offrampAddress merkleRoots signatures st =
        .error .OutOfOrderSignatures) ∧
    (¬ addrs.Nodup →
      verify computeDigest ecrecover offrampAddress merkleRoots signatures st =
        .error .OutOfOrderSignatures) ∧
    (∀ e, ¬ addrs.Nodup →
      verify computeDigest ecrecover offrampAddress merkleRoots signatures st = .error e →
      e = .OutOfOrderSignatures) := by
  have hmain : ¬ List.Chain' (· < ·) addrs →
      verify computeDigest ecrecover offrampAddress merkleRoots signatures st =
        .error .OutOfOrderSignatures := by
    intro h
    have hB : strictlyIncreasingB addrs = false := by
      rw [← Bool.not_eq_true]
      intro hB
      exact h ((strictlyIncreasingB_iff addrs).mp hB)
    simp [verify, hrec, hinstalled, hB]
  have hdup : ¬ addrs.Nodup →
      verify computeDigest ecrecover offrampAddress merkleRoots signatures st =
        .error .OutOfOrderSignatures :=
    fun hnd => hmain (fun hch => hnd (chain'_lt_nodup hch))
  refine ⟨hmain, hdup, ?_⟩
  intro e hnd heq
  rw [hdup hnd] at heq
  injection heq with h
  exact h.symm

theorem verify_out_of_order_signatures_witness :
    verify cdZero ecId 9 [] [⟨3, 0⟩, ⟨3, 0⟩] st7 = .error .OutOfOrderSignatures :=
  (verify_out_of_order_signatures cdZero ecId 9 [] [⟨3, 0⟩, ⟨3, 0⟩] st7 [3, 3]
    (by decide) rfl).2.1 (by decide)

/-- C4: for every installed Config and every batch of well-formed,
correctly ordered signatures from configured signers, verify succeeds
when the number of valid matching signatures is at least f+1 and fails
with ThresholdNotMet when it is fewer than f+1. -/
theorem verify_quorum (computeDigest : Nat → Nat → List Nat → Nat)
    (ecrecover : Nat → Signature → Option Nat)
    (offrampAddress : Nat) (merkleRoots : List Nat) (signatures : List Signature)
    (st : RMNState) (addrs : List Nat)
    (hinstalled : st.versionedConfig.version ≠ 0)
    (hrec : recoveredAddrs computeDigest ecrecover offrampAddress merkleRoots st signatures
      = some addrs)
    (hchain : List.Chain' (· < ·) addrs)
    (hmem : ∀ a ∈ addrs, a ∈ signerKeys st) :
    (st.versionedConfig.config.f + 1 ≤ addrs.length →
      verify computeDigest ecrecover offrampAddress merkleRoots signatures st = .ok ()) ∧
    (addrs.length < st.versionedConfig.config.f + 1 →
      verify computeDigest ecrecover offrampAddress merkleRoots signatures st =
        .error .ThresholdNotMet) := by
  have hB : strictlyIncreasingB addrs = true := (strictlyIncreasingB_iff addrs).mpr hchain
  have hall : addrs.all (fun a => decide (a ∈ signerKeys st)) = true := by
    simp only [List.all_eq_true, decide_eq_true_eq]
    exact hmem
  constructor
  · intro hge
    have hlt : ¬ addrs.length < st.versionedConfig.config.f + 1 := by omega
    simp [verify, hrec, hinstalled, hB, hall, hlt]
  · intro hlt
    simp [verify, hrec, hinstalled, hB, hall, hlt]

theorem verify_quorum_witness :
    verify cdZero ecId 9 [] [⟨1, 0⟩, ⟨2, 0⟩, ⟨3, 0⟩, ⟨4, 0⟩] st7 = .ok () ∧
    verify cdZero ecId 9 [] [⟨1, 0⟩, ⟨2, 0⟩] st7 = .error .ThresholdNotMet := by
  constructor
  · exact (verify_quorum cdZero ecId 9 [] [⟨1, 0⟩, ⟨2, 0⟩, ⟨3, 0⟩, ⟨4, 0⟩] st7 [1, 2, 3, 4]
      (by decide) rfl (by simp [List.chain'_cons]) (by decide)).1 (by decide)
  · exact (verify_quorum cdZero ecId 9 [] [⟨1, 0⟩, ⟨2, 0⟩] st7 [1, 2]
      (by decide) rfl (by simp [List.chain'_cons]) (by decide)).2 (by decide)

/-- C5: for every valid candidate Config (non-zero digest, at least 2f+1
strictly-increasing signers), setConfig succeeds, the stored version
increments by exactly 1 from its previous value, the candidate fully
replaces the stored Config, and a ConfigSet(newVersion, candidate) event
is emitted. -/
theorem setConfig_success (c : Config) (st : RMNState)
    (hdigest : c.rmnHomeContractConfigDigest ≠ 0)
    (hlen : 2 * c.f + 1 ≤ c.signers.length)
    (hchain : List.Chain' (· < ·) (sigKeys c.signers)) :
    setConfig c st = .ok { st with
      versionedConfig := { version := st.versionedConfig.version + 1, config := c }
      events := st.events ++
        [Event.ConfigSet (st.versionedConfig.version + 1) c] } := by
  have hck : checkSigners c.signers [] none = .ok () :=
    checkSigners_ok c.signers [] none hchain (fun x hx => absurd hx (List.not_mem_nil x))
  have hnl : ¬ c.signers.length < 2 * c.f + 1 := by omega
  simp [setConfig, hdigest, hnl, hck]

theorem setConfig_success_witness :
    setConfig smallConfig (initialState 1) =
      .ok ⟨1, ⟨1, smallConfig⟩, [], [Event.ConfigSet 1 smallConfig]⟩ := by
  have h := setConfig_success smallConfig (initialState 1) (by decide) (by decide)
    (by simp [smallConfig, sigKeys, List.chain'_cons])
  simpa [initialState] using h

/-- C3 counterexample: a candidate whose signer keys are not strictly
increasing (a strictly increasing prefix with the first key duplicated at
the end, the exact shape of test_setConfig_duplicateOnChainPublicKey_reverts)
fails with DuplicateOnchainPublicKey, not with InvalidSignerOrder as the
claim's order-check-before-duplicate-check reading would demand. -/
theorem setConfig_dup_vs_order_counterexample :
    ¬ List.Chain' (· < ·) (sigKeys badDupConfig.signers) ∧
    setConfig badDupConfig (initialState 1) = .error .DuplicateOnchainPublicKey := by
  constructor
  · intro hch
    exact absurd ((strictlyIncreasingB_iff _).mpr hch) (by decide)
  · rfl

/-- C3 (amended): setConfig checks the digest, then the signer count, then
walks the signers checking each key first for duplication against the
keys already accepted and then for strict increase over the previous key;
each of the four error kinds is reachable: zero digest gives
ZeroValueNotAllowed, fewer than 2f+1 signers gives NotEnoughSigners, an
order violation among distinct keys gives InvalidSignerOrder, and a key
repeating one accepted earlier after a strictly increasing prefix gives
DuplicateOnchainPublicKey. -/
theorem setConfig_validation (c : Config) (st : RMNState) :
    (c.rmnHomeContractConfigDigest = 0 →
      setConfig c st = .error .ZeroValueNotAllowed) ∧
    (c.rmnHomeContractConfigDigest ≠ 0 → c.signers.length < 2 * c.f + 1 →
      setConfig c st = .error .NotEnoughSigners) ∧
    (c.rmnHomeContractConfigDigest ≠ 0 → 2 * c.f + 1 ≤ c.signers.length →
      (sigKeys c.signers).Nodup → ¬ List.Chain' (· < ·) (sigKeys c.signers) →
      setConfig c st = .error .InvalidSignerOrder) ∧
    (∀ (l : List Signer) (d : Signer), c.signers = l ++ [d] →
      c.rmnHomeContractConfigDigest ≠ 0 → 2 * c.f + 1 ≤ c.signers.length →
      List.Chain' (· < ·) (sigKeys l) → d.onchainPublicKey ∈ sigKeys l →
      setConfig c st = .error .DuplicateOnchainPublicKey) := by
  refine ⟨?_, ?_, ?_, ?_⟩
  · intro h
    simp [setConfig, h]
  · intro h hlen
    simp [setConfig, h, hlen]
  · intro h hlen hnd hch
    have hck := checkSigners_order_error c.signers [] none hnd (by simp) hch
    have hnl : ¬ c.signers.length < 2 * c.f + 1 := by omega
    simp [setConfig, h, hnl, hck]
  · intro l d hcs h hlen hch hmem
    have hck : checkSigners c.signers [] none = .error .DuplicateOnchainPublicKey := by
      rw [hcs]
      exact checkSigners_dup l d [] none hch
        (fun x hx => absurd hx (List.not_mem_nil x)) (by simpa using hmem)
    have hnl : ¬ c.signers.length < 2 * c.f + 1 := by omega
    simp [setConfig, h, hnl, hck]

theorem setConfig_validation_witness :
    setConfig { rmnHomeContractConfigDigest := 0, signers := [⟨1, 0⟩, ⟨2, 1⟩, ⟨3, 2⟩], f := 1 }
        (initialState 1) = .error .ZeroValueNotAllowed ∧
    setConfig { rmnHomeContractConfigDigest := 3, signers := [⟨1, 0⟩], f := 1 }
        (initialState 1) = .error .NotEnoughSigners ∧
    setConfig { rmnHomeContractConfigDigest := 3, signers := [⟨2, 0⟩, ⟨1, 1⟩, ⟨3, 2⟩], f := 1 }
        (initialState 1) = .error .InvalidSignerOrder ∧
    setConfig badDupConfig (initialState 1) = .error .DuplicateOnchainPublicKey := by
  refine ⟨?_, ?_, ?_, ?_⟩
  · exact (setConfig_validation _ _).1 rfl
  · exact (setConfig_validation _ _).2.1 (by decide) (by decide)
  · exact (setConfig_validation _ _).2.2.1 (by decide) (by decide) (by decide)
      (fun hch => absurd ((strictlyIncreasingB_iff _).mpr hch) (by decide))
  · exact (setConfig_validation _ _).2.2.2 [⟨10, 0⟩, ⟨20, 1⟩, ⟨30, 2⟩] ⟨10, 3⟩ rfl
      (by decide) (by decide) (by simp [sigKeys, List.chain'_cons]) (by decide)

/-- C6: curse fails atomically with AlreadyCursed and leaves the state
unchanged whenever some input subject is already cursed or duplicated
within the call, and otherwise adds every input subject and emits
Cursed(subjects); symmetrically, uncurse fails atomically with NotCursed
whenever some input subject is not currently cursed (including a subject
repeated after its first removal), and otherwise removes every input
subject and emits Uncursed(subjects). -/
theorem curse_uncurse (computeDigest : Nat → Nat → List Nat → Nat)
    (ecrecover : Nat → Signature → Option Nat)
    (subjects : List Nat) (st : RMNState) (hst : st.cursedSubjects.Nodup) :
    ((¬ subjects.Nodup ∨ ∃ s ∈ subjects, s ∈ st.cursedSubjects) →
      ∃ s ∈ subjects, curse subjects st = .error (.AlreadyCursed s) ∧
        (runTx computeDigest ecrecover st (.curse subjects)).2 = st) ∧
    (subjects.Nodup → (∀ s ∈ subjects, s ∉ st.cursedSubjects) →
      curse subjects st = .ok { st with
        cursedSubjects := st.cursedSubjects ++ subjects
        events := st.events ++ [Event.Cursed subjects] }) ∧
    ((¬ subjects.Nodup ∨ ∃ s ∈ subjects, s ∉ st.cursedSubjects) →
      ∃ s ∈ subjects, uncurse subjects st = .error (.NotCursed s) ∧
        (runTx computeDigest ecrecover st (.uncurse subjects)).2 = st) ∧
    (subjects.Nodup → (∀ s ∈ subjects, s ∈ st.cursedSubjects) →
      ∃ st', uncurse subjects st = .ok st' ∧
        (∀ x, x ∈ st'.cursedSubjects ↔ (x ∈ st.cursedSubjects ∧ x ∉ subjects)) ∧
        st'.events = st.events ++ [Event.Uncursed subjects] ∧
        st'.versionedConfig = st.versionedConfig) := by
  refine ⟨?_, ?_, ?_, ?_⟩
  · intro h
    obtain ⟨s, hs, heq⟩ := curseAdd_error subjects st.cursedSubjects h
    refine ⟨s, hs, ?_, ?_⟩ <;> simp [runTx, curse, heq]
  · intro hnd hdisj
    have heq := curseAdd_ok subjects st.cursedSubjects hnd hdisj
    simp [curse, heq]
  · intro h
    obtain ⟨s, hs, heq⟩ := uncurseRemove_error subjects st.cursedSubjects hst h
    refine ⟨s, hs, ?_, ?_⟩ <;> simp [runTx, uncurse, heq]
  · intro hnd hall
    obtain ⟨cur', heq, hnd', hmem⟩ :=
      uncurseRemove_ok subjects st.cursedSubjects hst hnd hall
    refine ⟨{ st with cursedSubjects := cur', events := st.events ++ [Event.Uncursed subjects] }, ?_, hmem, rfl, rfl⟩
    simp [uncurse, heq]

theorem curse_uncurse_witness :
    (∃ s ∈ [5], curse [5] cursedState5 = .error (.AlreadyCursed s) ∧
      (runTx cdZero ecId cursedState5 (.curse [5])).2 = cursedState5) ∧
    curse [7] cursedState5 = .ok { cursedState5 with
      cursedSubjects := cursedState5.cursedSubjects ++ [7]
      events := cursedState5.events ++ [Event.Cursed [7]] } ∧
    (∃ s ∈ [9], uncurse [9] cursedState5 = .error (.NotCursed s) ∧
      (runTx cdZero ecId cursedState5 (.uncurse [9])).2 = cursedState5) ∧
    (∃ st', uncurse [5] cursedState5 = .ok st' ∧
      (∀ x, x ∈ st'.cursedSubjects ↔
        (x ∈ cursedState5.cursedSubjects ∧ x ∉ [5]))) := by
  refine ⟨?_, ?_, ?_, ?_⟩
  · exact (curse_uncurse cdZero ecId [5] cursedState5 (by decide)).1 (Or.inr (by decide))
  · exact (curse_uncurse cdZero ecId [7] cursedState5 (by decide)).2.1 (by decide) (by decide)
  · exact (curse_uncurse cdZero ecId [9] cursedState5 (by decide)).2.2.1 (Or.inr (by decide))
  · obtain ⟨st', h1, h2, _, _⟩ :=
      (curse_uncurse cdZero ecId [5] cursedState5 (by decide)).2.2.2 (by decide) (by decide)
    exact ⟨st', h1, h2⟩

end RMN

namespace keystone

/-- C10: RegisteredDon.signers returns the 20-byte signer addresses (the
first 20 bytes of each node's 32-byte Signer field) of all non-bootstrap
nodes ordered by the string form of each node's P2P key, not by the
signer address itself, so for some node sets the returned sequence is not
strictly increasing by publicKey. -/
theorem registeredDon_signers_p2p_order :
    RegisteredDon.signers exampleDon = [signerAddress exNode1, signerAddress exNode2] ∧
    exNode1.P2PKeyStr < exNode2.P2PKeyStr ∧
    signerAddress exNode2 < signerAddress exNode1 ∧
    signerAddress exNode1 = bytesToNat (List.take 20 exNode1.Signer) ∧
    ¬ List.Chain' (· < ·) (RegisteredDon.signers exampleDon) := by
  have h1 : RegisteredDon.signers exampleDon =
      [signerAddress exNode1, signerAddress exNode2] := rfl
  have h3 : signerAddress exNode2 < signerAddress exNode1 := by decide
  refine ⟨h1, by decide, h3, rfl, ?_⟩
  intro hch
  rw [h1, List.chain'_cons] at hch
  exact absurd hch.1 (Nat.lt_asymm h3)

end keystone
